import Mathlib

/-!
Shallow embedding of the gasmon event pipeline
(src/gasmon/pipeline.py, src/gasmon/sink.py, src/gasmon/__init__.py).

Conventions:
* timestamps and wall-clock instants are integers (milliseconds for the
  windowed averager, seconds for the pipeline stages, as in the source);
* sensor values are rationals, standing in for Python floats;
* opaque string identifiers are modelled as naturals;
* Python exceptions (IndexError, ZeroDivisionError) are modelled by
  `Option`/`Except`: a `none`/`.error` result is a raised exception;
* `time.time()` is an external input: every function that reads the clock
  takes the current instant as an explicit argument.
-/

/-- An event flowing through the pipeline, with the fields the stages and
sinks read: `location_id`, `event_id`, `timestamp`, `value`. -/
structure Event where
  location_id : ℕ
  event_id : ℕ
  timestamp : ℤ
  value : ℚ
  deriving DecidableEq

/-- One time bin of the windowed averager: half-open `[start, end_)` with the
values collected so far (`AverageBin` in src/gasmon/sink.py; the field `end`
is renamed `end_` because `end` is a Lean keyword). -/
structure AverageBin where
  start : ℤ
  end_ : ℤ
  values : List ℚ
  deriving DecidableEq

/-- A finalized average record (`Average` in src/gasmon/sink.py).  The source
converts `start`/`end` to `datetime` objects for display; the embedding keeps
the underlying millisecond timestamps. -/
structure Average where
  start : ℤ
  end_ : ℤ
  value : ℚ
  deriving DecidableEq

/-- `AverageBin.average` (src/gasmon/sink.py): the arithmetic mean of the
collected values, or 0 for an empty bin (`if self.values else 0`). -/
def AverageBin.average (b : AverageBin) : Average :=
  { start := b.start, end_ := b.end_,
    value := if b.values = [] then 0 else b.values.sum / (b.values.length : ℚ) }

/-- The mutable state of the `CalculatesAverage` sink: the configured periods
(already scaled to milliseconds) and the deque of bins. -/
structure CalculatesAverage where
  averaging_period_ms : ℕ
  expiry_time_ms : ℤ
  bins : List AverageBin
  deriving DecidableEq

/-- `CalculatesAverage.__init__`: periods are given in seconds and scaled to
milliseconds; the deque is seeded with a single zero-width bin ending
`expiry_time_ms` before the current time. -/
def CalculatesAverage.init (averaging_period expiry_time : ℕ)
    (current_time_ms : ℤ) : CalculatesAverage :=
  { averaging_period_ms := 1000 * averaging_period
  , expiry_time_ms := 1000 * expiry_time
  , bins := [{ start := current_time_ms - 1000 * expiry_time
             , end_ := current_time_ms - 1000 * expiry_time
             , values := [] }] }

/-- Number of iterations of the `while self.bins[-1].end < event.timestamp`
loop of `add_to_bin`: each iteration advances the last end by
`averaging_period_ms`, until it reaches the timestamp. -/
def newBinsCount (p : ℕ) (ts lastEnd : ℤ) : ℕ :=
  if 0 < p then ((ts - lastEnd) + ((p : ℤ) - 1)).toNat / p else 0

/-- The bins appended by `n` iterations of that loop, starting at `lastEnd`. -/
def newBinsFrom (p : ℕ) (lastEnd : ℤ) : ℕ → List AverageBin
  | 0 => []
  | n + 1 => { start := lastEnd, end_ := lastEnd + (p : ℤ), values := [] }
      :: newBinsFrom p (lastEnd + (p : ℤ)) n

/-- The bins appended by the whole loop. -/
def newBins (p : ℕ) (ts lastEnd : ℤ) : List AverageBin :=
  newBinsFrom p lastEnd (newBinsCount p ts lastEnd)

/-- `newBins` satisfies the defining equation of the source's `while` loop.
The `0 < p` guard records that the loop does not terminate for a zero
period, a configuration the application never constructs. -/
lemma newBins_eq (p : ℕ) (ts lastEnd : ℤ) :
    newBins p ts lastEnd =
      if lastEnd < ts ∧ 0 < p then
        { start := lastEnd, end_ := lastEnd + (p : ℤ), values := [] }
          :: newBins p ts (lastEnd + (p : ℤ))
      else [] := by
  by_cases hp : 0 < p
  · by_cases hl : lastEnd < ts
    · have e1 : ((ts - lastEnd) + ((p : ℤ) - 1)).toNat
          = ((ts - (lastEnd + (p : ℤ))) + ((p : ℤ) - 1)).toNat + p := by omega
      have e2 : newBinsCount p ts lastEnd = newBinsCount p ts (lastEnd + (p : ℤ)) + 1 := by
        simp only [newBinsCount, if_pos hp, e1]
        exact Nat.add_div_right _ hp
      simp [newBins, e2, newBinsFrom, hl, hp]
    · have e0 : newBinsCount p ts lastEnd = 0 := by
        simp only [newBinsCount, if_pos hp]
        exact Nat.div_eq_of_lt (by omega)
      simp [newBins, e0, newBinsFrom, hl]
  · simp [newBins, newBinsCount, hp, newBinsFrom]

/-- `CalculatesAverage.write_bins_to_file` (src/gasmon/sink.py): the rows
written to `Gas_Averages.csv`.  The file is opened with mode `w`, so each
call replaces the previous contents with one row
`(Bin Start, Bin End, Average Value)` per currently held bin that has at
least one value. -/
def write_bins_rows (bins : List AverageBin) : List Average :=
  (bins.filter fun b => b.values.length != 0).map AverageBin.average

/-- `CalculatesAverage.add_to_bin`.  `none` models the `IndexError` the
source raises when the deque is indexed out of range.  On success the second
component is the csv file contents written by `write_bins_to_file`, or
`none` when the event was dropped as too old (no write happens on that
path).  With a zero `averaging_period_ms` the source would raise
`ZeroDivisionError`; the embedding's `Nat` division returns 0 there, a case
no caller constructs. -/
def add_to_bin (s : CalculatesAverage) (e : Event) :
    Option (CalculatesAverage × Option (List Average)) :=
  match s.bins with
  | [] => none
  | b0 :: rest =>
    if e.timestamp < b0.start then
      some (s, none)
    else
      let lastEnd := ((b0 :: rest).getLast (List.cons_ne_nil b0 rest)).end_
      let bins1 := (b0 :: rest) ++ newBins s.averaging_period_ms e.timestamp lastEnd
      let idx := (e.timestamp - b0.start).toNat / s.averaging_period_ms
      match bins1.get? idx with
      | none => none
      | some b =>
        let bins2 := bins1.set idx { b with values := b.values ++ [e.value] }
        some ({ s with bins := bins2 }, some (write_bins_rows bins2))

/-- `CalculatesAverage.maybe_expire_first_bin_and_get_average`: pops and
returns the first bin once it has aged past the expiry window; `none` models
the `IndexError` on an empty deque. -/
def maybe_expire_first_bin_and_get_average (s : CalculatesAverage)
    (current_time_ms : ℤ) : Option (CalculatesAverage × Option AverageBin) :=
  match s.bins with
  | [] => none
  | b0 :: rest =>
    if b0.end_ < current_time_ms - s.expiry_time_ms then
      some ({ s with bins := rest }, some b0)
    else some (s, none)

/-- One iteration of `CalculatesAverage.handle` for a single event:
`add_to_bin` followed by `maybe_expire_first_bin_and_get_average`.  Result:
new state, the logged average of the retired bin (if one was retired), and
the csv file contents (if a write happened). -/
def handleStep (s : CalculatesAverage) (e : Event) (current_time_ms : ℤ) :
    Option (CalculatesAverage × Option Average × Option (List Average)) :=
  match add_to_bin s e with
  | none => none
  | some (s1, written) =>
    match maybe_expire_first_bin_and_get_average s1 current_time_ms with
    | none => none
    | some (s2, popped) => some (s2, popped.map AverageBin.average, written)

/-- `CalculatesAverage.handle` over a finite stream, paired with the clock
instants at which the events are processed; threads the csv file contents
and collects the logged averages.  `none` models an uncaught exception. -/
def handleRun (s : CalculatesAverage) (file : List Average) :
    List (Event × ℤ) → Option (CalculatesAverage × List Average × List Average)
  | [] => some (s, file, [])
  | (e, t) :: rest =>
    match handleStep s e t with
    | none => none
    | some (s2, logged, written) =>
      match handleRun s2 (written.getD file) rest with
      | none => none
      | some (sf, filef, logs) => some (sf, filef, logged.toList ++ logs)

/-- C1.  The bin deque can be emptied, contrary to the claimed invariant:
starting from `CalculatesAverage.init 10 30` at time 30000 (sentinel bin
`[0, 0)`), an event with timestamp -5 is dropped as old so no bin is added,
and at time 30001 the expiry check `30001 - 30000 > 0` pops the only bin.
The deque is then empty and handling the next event raises `IndexError`
(the run evaluates to `none`). -/
theorem c1_bin_deque_emptied :
    handleStep (CalculatesAverage.init 10 30 30000) ⟨1, 21, -5, 1⟩ 30001
      = some (⟨10000, 30000, []⟩, some ⟨0, 0, 0⟩, none)
    ∧ handleRun (CalculatesAverage.init 10 30 30000) []
        [(⟨1, 21, -5, 1⟩, 30001), (⟨1, 22, 1, 1⟩, 30002)] = none := by
  constructor
  · decide
  · decide

/-- C3.  Bin placement at the boundary: with a single bin `[0, 10000)` an
event whose timestamp equals the last bin's end (10000) creates no new bin
(the loop guard is strict `<`) and the computed index 1 is out of range, so
the source raises `IndexError` instead of creating bin `[10000, 20000)` and
placing the event there.  Moreover, while the zero-width sentinel bin is
still present, an event with timestamp 15000 is appended to the bin
`[0, 10000)`, which does not contain its timestamp (off-by-one placement:
the index formula assumes every bin has width `averaging_period_ms`). -/
theorem c3_boundary_event_misplaced :
    add_to_bin ⟨10000, 30000, [⟨0, 10000, []⟩]⟩ ⟨1, 31, 10000, 2⟩ = none
    ∧ add_to_bin ⟨10000, 30000, [⟨0, 0, []⟩]⟩ ⟨1, 32, 15000, 7⟩
        = some (⟨10000, 30000, [⟨0, 0, []⟩, ⟨0, 10000, [7]⟩, ⟨10000, 20000, []⟩]⟩,
            some [⟨0, 10000, 7⟩])
    ∧ ¬ ((0 : ℤ) ≤ 15000 ∧ (15000 : ℤ) < 10000) := by
  refine ⟨by decide, ?_, by decide⟩
  simp [add_to_bin, write_bins_rows, AverageBin.average, newBins, newBinsCount,
    newBinsFrom]

/-- C5 counterexample.  Processing one event at timestamp 500 (current time
5000, expiry 30000) places it in the still-live bin `[0, 10000)`; no bin is
retired (the logged average is `none`), yet the csv file is written with a
row for that live bin.  This falsifies "rows for bins that are still live
are not written" and "only finalized Averages are emitted". -/
theorem c5_live_bin_row_written :
    handleStep ⟨10000, 30000, [⟨0, 10000, []⟩]⟩ ⟨1, 41, 500, 2⟩ 5000
      = some (⟨10000, 30000, [⟨0, 10000, [2]⟩]⟩, none, some [⟨0, 10000, 2⟩]) := by
  simp [handleStep, add_to_bin, maybe_expire_first_bin_and_get_average,
    write_bins_rows, AverageBin.average, newBins, newBinsCount, newBinsFrom]

/-- C5 amended.  Whenever `add_to_bin` writes the csv file, the written
contents are exactly the snapshot `write_bins_rows` of the deque after
placement: one row per currently held bin with at least one value, replacing
the previous file contents.  Retiring a bin removes it from the deque (so
later snapshots omit it); its Average is only logged, never appended to the
file. -/
theorem c5_file_rows_are_live_bin_snapshot :
    (∀ (s : CalculatesAverage) (e : Event) (s2 : CalculatesAverage) (f : List Average),
        add_to_bin s e = some (s2, some f) →
        f = write_bins_rows s2.bins
          ∧ ∀ a ∈ f, ∃ b ∈ s2.bins, b.values.length ≠ 0 ∧ a = b.average)
    ∧ (∀ (s : CalculatesAverage) (now : ℤ) (s2 : CalculatesAverage) (b : AverageBin),
        maybe_expire_first_bin_and_get_average s now = some (s2, some b) →
        s.bins = b :: s2.bins) := by
  constructor
  · intro s e s2 f h
    unfold add_to_bin at h
    split at h
    · exact absurd h (by simp)
    · split at h
      · simp at h
      · dsimp only at h
        split at h
        · exact absurd h (by simp)
        · simp only [Option.some.injEq, Prod.mk.injEq] at h
          obtain ⟨hs2, hf⟩ := h
          subst hf
          refine ⟨by rw [← hs2], ?_⟩
          intro a ha
          rw [← hs2]
          simp only [write_bins_rows, List.mem_map, List.mem_filter,
            bne_iff_ne, ne_eq] at ha
          obtain ⟨b, ⟨hbmem, hbne⟩, hba⟩ := ha
          exact ⟨b, hbmem, hbne, hba.symm⟩
  · intro s now s2 b h
    unfold maybe_expire_first_bin_and_get_average at h
    split at h
    · simp at h
    · rename_i b0 rest heq
      split at h
      · simp only [Option.some.injEq, Prod.mk.injEq] at h
        obtain ⟨hs2, hb⟩ := h
        subst hb
        rw [heq, ← hs2]
      · simp at h

/-- C5 witness: the amended theorem applied to the concrete step of the
counterexample. -/
theorem c5_file_rows_witness :
    [(⟨0, 10000, 2⟩ : Average)]
      = write_bins_rows ((⟨10000, 30000, [⟨0, 10000, [2]⟩]⟩ : CalculatesAverage).bins) :=
  (c5_file_rows_are_live_bin_snapshot.1 ⟨10000, 30000, [⟨0, 10000, []⟩]⟩
    ⟨1, 41, 500, 2⟩ ⟨10000, 30000, [⟨0, 10000, [2]⟩]⟩ [⟨0, 10000, 2⟩]
    (by simp [add_to_bin, write_bins_rows, AverageBin.average, newBins,
      newBinsCount, newBinsFrom])).1

/-- C7.  Every bin retired by `maybe_expire_first_bin_and_get_average`
finalizes to the arithmetic mean of its collected values (sum divided by
count), and to 0 — not an error — when it retired with no values; in
particular, with averaging period 10s and expiry 30s, the bin `[0, 10000)`
holding the values 4 and 6 is retired at time 50000 and finalizes to
average value 5. -/
theorem c7_retired_bin_average_mean_or_zero :
    (∀ (s : CalculatesAverage) (now : ℤ) (s2 : CalculatesAverage) (b : AverageBin),
        maybe_expire_first_bin_and_get_average s now = some (s2, some b) →
        (b.values ≠ [] → b.average.value = b.values.sum / (b.values.length : ℚ))
          ∧ (b.values = [] → b.average.value = 0))
    ∧ maybe_expire_first_bin_and_get_average ⟨10000, 30000, [⟨0, 10000, [4, 6]⟩]⟩ 50000
        = some (⟨10000, 30000, []⟩, some ⟨0, 10000, [4, 6]⟩)
    ∧ (AverageBin.average ⟨0, 10000, [4, 6]⟩).value = 5 := by
  refine ⟨?_, by decide, by simp only [AverageBin.average]; rw [if_neg (by decide)]; norm_num⟩
  intro s now s2 b _
  constructor
  · intro hne
    simp [AverageBin.average, hne]
  · intro he
    simp [AverageBin.average, he]

/-- C7 witness: the general part applied to the concrete retirement of the
bin `[0, 10000)` holding `[4, 6]`. -/
theorem c7_retired_bin_average_witness :
    (AverageBin.average ⟨0, 10000, [4, 6]⟩).value
      = ([4, 6] : List ℚ).sum / ((([4, 6] : List ℚ).length : ℕ) : ℚ) :=
  (c7_retired_bin_average_mean_or_zero.1 ⟨10000, 30000, [⟨0, 10000, [4, 6]⟩]⟩ 50000
    ⟨10000, 30000, []⟩ ⟨0, 10000, [4, 6]⟩ (by decide)).1 (by decide)

/-- A deduplication cache record (`DeduplicationRecord` in
src/gasmon/pipeline.py): the instant at which the id leaves the cache. -/
structure DeduplicationRecord where
  expiry : ℤ
  id : ℕ
  deriving DecidableEq

/-- The mutable state of the `DeDuplicator` pipeline stage. -/
structure DeDuplicator where
  cache_expiry_time : ℤ
  expiry_queue : List DeduplicationRecord
  id_cache : Finset ℕ
  duplicate_events_ignored : ℕ
  deriving DecidableEq

/-- `DeDuplicator.__init__`. -/
def DeDuplicator.init (cache_expiry_time : ℤ) : DeDuplicator :=
  { cache_expiry_time := cache_expiry_time
  , expiry_queue := []
  , id_cache := ∅
  , duplicate_events_ignored := 0 }

/-- The record-expiry loop at the top of `DeDuplicator.handle`:
`while len(queue) > 0 and processed_at_time > queue[0].expiry`, pop the
front record and remove its id from the cache. -/
def evictLoop (now : ℤ) :
    List DeduplicationRecord → Finset ℕ → List DeduplicationRecord × Finset ℕ
  | [], cache => ([], cache)
  | r :: q, cache =>
    if r.expiry < now then evictLoop now q (cache.erase r.id)
    else (r :: q, cache)

/-- One iteration of `DeDuplicator.handle` for a single event processed at
wall-clock instant `now`: evict expired records, then either count the event
as a duplicate and drop it, or record its id and pass it on. -/
def dedupStep (d : DeDuplicator) (e : Event) (now : ℤ) : DeDuplicator × Option Event :=
  match evictLoop now d.expiry_queue d.id_cache with
  | (q, cache) =>
    if e.event_id ∈ cache then
      ({ d with
          expiry_queue := q
          id_cache := cache
          duplicate_events_ignored := d.duplicate_events_ignored + 1 }, none)
    else
      ({ d with
          expiry_queue := q ++ [⟨now + d.cache_expiry_time, e.event_id⟩]
          id_cache := insert e.event_id cache }, some e)

/-- `DeDuplicator.handle` over a finite stream, each event paired with the
wall-clock instant at which it is processed; returns the final stage state
and the list of yielded (non-duplicate) events. -/
def dedupRun (d : DeDuplicator) : List (Event × ℤ) → DeDuplicator × List Event
  | [] => (d, [])
  | (e, t) :: rest =>
    match dedupStep d e t with
    | (d1, out) =>
      match dedupRun d1 rest with
      | (d2, outs) => (d2, out.toList ++ outs)

/-- Specification-side count of repeated ids: the number of ids in the list
already seen (either in `seen` or earlier in the list). -/
def countDupsFrom (seen : Finset ℕ) : List ℕ → ℕ
  | [] => 0
  | i :: rest => (if i ∈ seen then 1 else 0) + countDupsFrom (insert i seen) rest

/-- If no queued record has expired, the eviction loop is the identity. -/
lemma evictLoop_noop (now : ℤ) (q : List DeduplicationRecord) (cache : Finset ℕ)
    (h : ∀ r ∈ q, ¬ r.expiry < now) : evictLoop now q cache = (q, cache) := by
  cases q with
  | nil => rfl
  | cons r q' => simp [evictLoop, h r (List.mem_cons_self r q')]

/-- When every processing instant lies within `cache_expiry_time` of every
earlier one (so no eviction ever fires), the duplicate counter advances by
exactly the number of already-seen ids. -/
lemma dedupRun_dup_count :
    ∀ (inputs : List (Event × ℤ)) (d : DeDuplicator),
      List.Pairwise (fun a b => b.2 ≤ a.2 + d.cache_expiry_time) inputs →
      (∀ r ∈ d.expiry_queue, ∀ p ∈ inputs, ¬ r.expiry < p.2) →
      (dedupRun d inputs).1.duplicate_events_ignored
        = d.duplicate_events_ignored
          + countDupsFrom d.id_cache (inputs.map fun p => p.1.event_id)
  | [], d, _, _ => by simp [dedupRun, countDupsFrom]
  | (e, t) :: rest, d, hp, hq => by
    have hnoev : evictLoop t d.expiry_queue d.id_cache = (d.expiry_queue, d.id_cache) :=
      evictLoop_noop _ _ _ (fun r hr => hq r hr (e, t) (List.mem_cons_self _ _))
    by_cases hid : e.event_id ∈ d.id_cache
    · have hstep : dedupStep d e t
          = ({ d with duplicate_events_ignored := d.duplicate_events_ignored + 1 }, none) := by
        simp [dedupStep, hnoev, hid]
      have ih := dedupRun_dup_count rest
        { d with duplicate_events_ignored := d.duplicate_events_ignored + 1 }
        hp.of_cons
        (fun r hr p hpmem => hq r hr p (List.mem_cons_of_mem _ hpmem))
      simp only [dedupRun, hstep, List.map_cons, countDupsFrom, if_pos hid,
        Finset.insert_eq_self.mpr hid]
      rcases hrun : dedupRun { d with duplicate_events_ignored := d.duplicate_events_ignored + 1 } rest
        with ⟨d2, outs⟩
      rw [hrun] at ih
      simp at ih ⊢
      omega
    · have hstep : dedupStep d e t
          = ({ d with
                expiry_queue := d.expiry_queue ++ [⟨t + d.cache_expiry_time, e.event_id⟩]
                id_cache := insert e.event_id d.id_cache }, some e) := by
        simp [dedupStep, hnoev, hid]
      have ih := dedupRun_dup_count rest
        { d with
            expiry_queue := d.expiry_queue ++ [⟨t + d.cache_expiry_time, e.event_id⟩]
            id_cache := insert e.event_id d.id_cache }
        hp.of_cons
        (by
          intro r hr p hpmem
          rcases List.mem_append.mp hr with hold | hnew
          · exact hq r hold p (List.mem_cons_of_mem _ hpmem)
          · have hrel := (List.pairwise_cons.mp hp).1 p hpmem
            simp only [List.mem_singleton] at hnew
            subst hnew
            simp only [not_lt]
            exact hrel)
      simp only [dedupRun, hstep, List.map_cons, countDupsFrom, if_neg hid, Nat.zero_add]
      rcases hrun : dedupRun { d with
          expiry_queue := d.expiry_queue ++ [⟨t + d.cache_expiry_time, e.event_id⟩]
          id_cache := insert e.event_id d.id_cache } rest with ⟨d2, outs⟩
      rw [hrun] at ih
      simp at ih ⊢
      omega

/-- `countDupsFrom` is zero exactly when the ids are distinct and none was
already seen. -/
lemma countDupsFrom_eq_zero_iff :
    ∀ (ids : List ℕ) (seen : Finset ℕ),
      countDupsFrom seen ids = 0 ↔ ids.Nodup ∧ ∀ i ∈ ids, i ∉ seen
  | [], seen => by simp [countDupsFrom]
  | i :: rest, seen => by
    rw [countDupsFrom]
    by_cases h : i ∈ seen
    · rw [if_pos h]
      constructor
      · intro h0
        exact absurd h0 (by omega)
      · rintro ⟨-, hall⟩
        exact absurd h (hall i (List.mem_cons_self i rest))
    · rw [if_neg h, Nat.zero_add, countDupsFrom_eq_zero_iff rest (insert i seen)]
      constructor
      · rintro ⟨hnd, hall⟩
        refine ⟨List.nodup_cons.mpr ⟨?_, hnd⟩, ?_⟩
        · intro hmem
          exact (hall i hmem) (Finset.mem_insert_self i seen)
        · intro j hj
          rcases List.mem_cons.mp hj with rfl | hj'
          · exact h
          · intro hjseen
            exact (hall j hj') (Finset.mem_insert.mpr (Or.inr hjseen))
      · rintro ⟨hnd, hall⟩
        obtain ⟨hnotin, hnd'⟩ := List.nodup_cons.mp hnd
        refine ⟨hnd', ?_⟩
        intro j hj hins
        rcases Finset.mem_insert.mp hins with rfl | hjseen
        · exact hnotin hj
        · exact (hall j (List.mem_cons_of_mem i hj)) hjseen

/-- C9.  Starting from a fresh `DeDuplicator`, for every finite input
sequence whose processing instants all lie within `cache_expiry_time` of
every earlier one, the final duplicate count is 0 iff all event ids are
distinct.  Concretely (TTL = 5): id 100 at t = 0 followed by id 100 at t = 3
leaves duplicate count 1 with only the first event yielded, while id 100 at
t = 0, an intervening id 200 at t = 4, then id 100 at t = 10 yields all
three events with duplicate count 0 (the first record expired). -/
theorem c9_duplicate_count_iff :
    (∀ (ttl : ℤ) (inputs : List (Event × ℤ)),
        List.Pairwise (fun a b => b.2 ≤ a.2 + ttl) inputs →
        ((dedupRun (DeDuplicator.init ttl) inputs).1.duplicate_events_ignored = 0
          ↔ (inputs.map fun p => p.1.event_id).Nodup))
    ∧ dedupRun (DeDuplicator.init 5) [(⟨0, 100, 0, 1⟩, 0), (⟨0, 100, 3, 2⟩, 3)]
        = (⟨5, [⟨5, 100⟩], {100}, 1⟩, [⟨0, 100, 0, 1⟩])
    ∧ dedupRun (DeDuplicator.init 5)
        [(⟨0, 100, 0, 1⟩, 0), (⟨0, 200, 4, 1⟩, 4), (⟨0, 100, 10, 1⟩, 10)]
        = (⟨5, [⟨15, 100⟩], {100}, 0⟩,
            [⟨0, 100, 0, 1⟩, ⟨0, 200, 4, 1⟩, ⟨0, 100, 10, 1⟩]) := by
  refine ⟨?_, by decide, by decide⟩
  intro ttl inputs hp
  rw [dedupRun_dup_count inputs (DeDuplicator.init ttl) hp (by simp [DeDuplicator.init])]
  simp only [DeDuplicator.init, Nat.zero_add]
  rw [countDupsFrom_eq_zero_iff]
  simp

/-- C9 witness: the general part instantiated with TTL 5 and two distinct
ids processed at instants 0 and 3. -/
theorem c9_duplicate_count_witness :
    (dedupRun (DeDuplicator.init 5)
        [(⟨0, 100, 0, 1⟩, 0), (⟨0, 200, 3, 1⟩, 3)]).1.duplicate_events_ignored = 0
      ↔ (([(⟨0, 100, 0, 1⟩, 0), (⟨0, 200, 3, 1⟩, 3)] : List (Event × ℤ)).map
          fun p => p.1.event_id).Nodup :=
  c9_duplicate_count_iff.1 5 [(⟨0, 100, 0, 1⟩, 0), (⟨0, 200, 3, 1⟩, 3)] (by decide)

/-- No-eviction run of duplicate arrivals: with a single live record for id
`x` expiring at `t0 + ttl`, any sequence of further `x`-events processed at
instants not later than that expiry is entirely dropped, leaving the queue
and the cache exactly as they were and adding one to the counter per
arrival. -/
lemma dedup_duplicates_noop (ttl t0 : ℤ) (x : ℕ) :
    ∀ (ts : List ℤ), (∀ t ∈ ts, t ≤ t0 + ttl) → ∀ (n : ℕ),
      dedupRun ⟨ttl, [⟨t0 + ttl, x⟩], {x}, n⟩ (ts.map fun t => (⟨0, x, t, 0⟩, t))
        = (⟨ttl, [⟨t0 + ttl, x⟩], {x}, n + ts.length⟩, [])
  | [], _, n => by simp [dedupRun]
  | t :: ts', h, n => by
    have ht : t ≤ t0 + ttl := h t (List.mem_cons_self _ _)
    have hstep : dedupStep ⟨ttl, [⟨t0 + ttl, x⟩], {x}, n⟩ ⟨0, x, t, 0⟩ t
        = (⟨ttl, [⟨t0 + ttl, x⟩], {x}, n + 1⟩, none) := by
      simp [dedupStep, evictLoop, not_lt.mpr ht]
    have ih := dedup_duplicates_noop ttl t0 x ts'
      (fun u hu => h u (List.mem_cons_of_mem _ hu)) (n + 1)
    simp only [List.map_cons, dedupRun, hstep, ih, Option.toList_none, List.nil_append,
      List.length_cons]
    have hn : n + 1 + ts'.length = n + (ts'.length + 1) := by omega
    rw [hn]

/-- C10.  (a) When the duplicate test fires, the step leaves the expiry
queue and the id cache exactly as the eviction pass left them: only the
duplicate counter changes and nothing is yielded — in particular no record
is added or refreshed for the duplicate id.  (b) Consequently, with one live
record for id `x` expiring at `t0 + ttl`, any number of duplicate arrivals
at instants up to that expiry leaves the state unchanged apart from the
counter, and a later `x`-event is admitted exactly when it is processed
strictly after `t0 + ttl`. -/
theorem c10_duplicate_frame_and_admissibility :
    (∀ (d : DeDuplicator) (e : Event) (now : ℤ),
        e.event_id ∈ (evictLoop now d.expiry_queue d.id_cache).2 →
        dedupStep d e now
          = ({ d with
                expiry_queue := (evictLoop now d.expiry_queue d.id_cache).1
                id_cache := (evictLoop now d.expiry_queue d.id_cache).2
                duplicate_events_ignored := d.duplicate_events_ignored + 1 }, none))
    ∧ (∀ (ttl t0 : ℤ) (x : ℕ) (ts : List ℤ),
        (∀ t ∈ ts, t ≤ t0 + ttl) →
        dedupRun ⟨ttl, [⟨t0 + ttl, x⟩], {x}, 0⟩ (ts.map fun t => (⟨0, x, t, 0⟩, t))
            = (⟨ttl, [⟨t0 + ttl, x⟩], {x}, ts.length⟩, [])
          ∧ ∀ t' : ℤ,
              ((dedupStep ⟨ttl, [⟨t0 + ttl, x⟩], {x}, ts.length⟩ ⟨0, x, t', 0⟩ t').2).isSome
                ↔ t0 + ttl < t') := by
  constructor
  · intro d e now hmem
    rcases hev : evictLoop now d.expiry_queue d.id_cache with ⟨q, c⟩
    rw [hev] at hmem
    simp only at hmem
    simp [dedupStep, hev, hmem]
  · intro ttl t0 x ts h
    constructor
    · simpa using dedup_duplicates_noop ttl t0 x ts h 0
    · intro t'
      by_cases hlt : t0 + ttl < t'
      · simp [dedupStep, evictLoop, hlt, Finset.erase_singleton]
      · simp [dedupStep, evictLoop, hlt]

/-- C10 witness: TTL 5, id 100 first recorded with expiry 5, three duplicate
arrivals at instants 1, 2, 3, then a further arrival at instant 6, which is
admitted. -/
theorem c10_duplicate_frame_witness :
    (dedupRun ⟨5, [⟨0 + 5, 100⟩], {100}, 0⟩
        ([1, 2, 3].map fun t => (⟨0, 100, t, 0⟩, t))
      = (⟨5, [⟨0 + 5, 100⟩], {100}, 3⟩, []))
    ∧ (((dedupStep ⟨5, [⟨0 + 5, 100⟩], {100}, 3⟩ ⟨0, 100, 6, 0⟩ 6).2).isSome
        ↔ (0 : ℤ) + 5 < 6) :=
  ⟨(c10_duplicate_frame_and_admissibility.2 5 0 100 [1, 2, 3] (by decide)).1,
    (c10_duplicate_frame_and_admissibility.2 5 0 100 [1, 2, 3] (by decide)).2 6⟩

/-- `ParallelSink.handle` (src/gasmon/sink.py) iterates the sinks, handing
each the *same* generator object: each member sink's own iteration exhausts
it, so after the first full consumption the remaining sinks receive an empty
stream.  `parallelSinkDeliveries n events` is the list of event sequences
the `n` sinks actually receive. -/
def parallelSinkDeliveries : ℕ → List Event → List (List Event)
  | 0, _ => []
  | n + 1, events => events :: parallelSinkDeliveries n []

/-- C2.  The per-sink consumptions are not independent.  (a) Under
`ParallelSink.handle`, with two attached sinks and a one-event stream the
first sink receives the event and the second receives nothing.  (b) In
`main` (src/gasmon/__init__.py), the same `DeDuplicator` instance handles
both sink pulls: after the first pull consumed id 100 (admitting it), the
second pull of the same logical stream at t = 3 (within TTL 5) yields no
events and inflates the shared duplicate counter to 1. -/
theorem c2_second_sink_starved :
    parallelSinkDeliveries 2 [⟨0, 100, 0, 1⟩] = [[⟨0, 100, 0, 1⟩], []]
    ∧ (dedupRun (DeDuplicator.init 5) [(⟨0, 100, 0, 1⟩, 0)]).2 = [⟨0, 100, 0, 1⟩]
    ∧ dedupRun ((dedupRun (DeDuplicator.init 5) [(⟨0, 100, 0, 1⟩, 0)]).1)
        [(⟨0, 100, 3, 1⟩, 3)]
        = (⟨5, [⟨5, 100⟩], {100}, 1⟩, []) := by
  refine ⟨rfl, by decide, by decide⟩

/-- A known location `{id, x, y}` from the external location list. -/
structure Location where
  id : ℕ
  x : ℚ
  y : ℚ
  deriving DecidableEq

/-- `EventLocation` (src/gasmon/sink.py): coordinates of a matched location
together with the event's gas intensity. -/
structure EventLocation where
  x : ℚ
  y : ℚ
  value : ℚ
  deriving DecidableEq

/-- The errors the location-averaging sink can raise. -/
inductive PyError where
  | zeroDivisionError
  deriving DecidableEq

/-- `LocationAverage.find_event_locations` (src/gasmon/sink.py).  In `main`
the `events` argument is the pipeline's generator, which is single-shot: the
inner `for event in events` loop exhausts it while scanning for the *first*
location, so every later location is matched against an already-empty
stream.  The recursion reflects that: the tail call receives `[]`. -/
def find_event_locations : List Location → List Event → List EventLocation
  | [], _ => []
  | loc :: rest, events =>
    ((events.filter fun e => loc.id == e.location_id).map fun e =>
        (⟨loc.x, loc.y, e.value⟩ : EventLocation))
      ++ find_event_locations rest []

/-- `LocationAverage.calculate_location_averages`: accumulate the weighted
sums over the collected event locations, then divide by the total value —
Python raises `ZeroDivisionError` when the total is zero, before any file
write happens. -/
def calculate_location_averages (locations : List Location) (events : List Event) :
    Except PyError (ℚ × ℚ) :=
  let event_details := find_event_locations locations events
  let total_val := (event_details.map EventLocation.value).sum
  let weighted_x := (event_details.map fun l => l.x * l.value).sum
  let weighted_y := (event_details.map fun l => l.y * l.value).sum
  if total_val = 0 then Except.error PyError.zeroDivisionError
  else Except.ok (weighted_x / total_val, weighted_y / total_val)

/-- `LocationAverage.handle`: on success the single `(x, y)` row written to
`Location_Averages.csv`; an error propagates to the caller and nothing is
written. -/
def location_average_handle (locations : List Location) (events : List Event) :
    Except PyError (List (ℚ × ℚ)) :=
  (calculate_location_averages locations events).map fun p => [p]

/-- Scanning an empty stream matches nothing, for any location list. -/
lemma find_event_locations_nil :
    ∀ (locs : List Location), find_event_locations locs [] = []
  | [] => rfl
  | loc :: rest => by
    simp [find_event_locations, find_event_locations_nil rest]

/-- Every collected value is the value of some event of the stream. -/
lemma find_event_locations_value_mem (locs : List Location) (evs : List Event) :
    ∀ l ∈ find_event_locations locs evs, ∃ e ∈ evs, l.value = e.value := by
  cases locs with
  | nil => simp [find_event_locations]
  | cons loc rest =>
    intro l hl
    rw [find_event_locations, find_event_locations_nil, List.append_nil] at hl
    simp only [List.mem_map, List.mem_filter] at hl
    obtain ⟨e, ⟨he, -⟩, rfl⟩ := hl
    exact ⟨e, he, rfl⟩

/-- A list of nonnegative rationals with zero sum is all zeros. -/
lemma sum_eq_zero_of_nonneg (l : List ℚ) (h : ∀ x ∈ l, 0 ≤ x) (hs : l.sum = 0) :
    ∀ x ∈ l, x = 0 := by
  induction l with
  | nil => simp
  | cons a l ih =>
    have ha : 0 ≤ a := h a (by simp)
    have hl : 0 ≤ l.sum := List.sum_nonneg (fun x hx => h x (by simp [hx]))
    rw [List.sum_cons] at hs
    have ha0 : a = 0 := by linarith
    have hl0 : l.sum = 0 := by linarith
    intro x hx
    rcases List.mem_cons.mp hx with rfl | hx'
    · exact ha0
    · exact ih (fun y hy => h y (by simp [hy])) hl0 x hx'

/-- C8.  When the total value accumulated in the pass is zero — in
particular for the empty stream, or for any stream of nonnegative values
summing to zero — `LocationAverage` fails with the division-by-zero error,
which propagates to the caller; it does not return 0 and writes no row. -/
theorem c8_zero_total_value_errors :
    (∀ (locations : List Location) (events : List Event),
        ((find_event_locations locations events).map EventLocation.value).sum = 0 →
        location_average_handle locations events
          = Except.error PyError.zeroDivisionError)
    ∧ (∀ (locations : List Location) (events : List Event),
        (∀ e ∈ events, 0 ≤ e.value) → (events.map Event.value).sum = 0 →
        location_average_handle locations events
          = Except.error PyError.zeroDivisionError) := by
  have base : ∀ (locations : List Location) (events : List Event),
      ((find_event_locations locations events).map EventLocation.value).sum = 0 →
      location_average_handle locations events = Except.error PyError.zeroDivisionError := by
    intro locations events h
    simp [location_average_handle, calculate_location_averages, h, Except.map]
  refine ⟨base, ?_⟩
  intro locations events hnn hsum
  apply base
  have hall : ∀ e ∈ events, e.value = 0 := by
    intro e he
    exact sum_eq_zero_of_nonneg (events.map Event.value)
      (by
        intro x hx
        obtain ⟨e', he', rfl⟩ := List.mem_map.mp hx
        exact hnn e' he')
      hsum e.value (List.mem_map.mpr ⟨e, he, rfl⟩)
  apply List.sum_eq_zero
  intro x hx
  obtain ⟨l, hl, rfl⟩ := List.mem_map.mp hx
  obtain ⟨e, he, hv⟩ := find_event_locations_value_mem locations events l hl
  rw [hv]
  exact hall e he

/-- C8 witness: the empty stream. -/
theorem c8_zero_total_value_witness :
    location_average_handle [] [] = Except.error PyError.zeroDivisionError :=
  c8_zero_total_value_errors.2 [] [] (by simp) (by simp)

/-- C4.  With known locations `{id 1 at (0,0), id 2 at (10,0)}` and the
pipeline's (single-shot) stream of two events — value 1 at location 1 and
value 3 at location 2 — the computed centroid is `(0, 0)`: the inner loop of
`find_event_locations` exhausts the stream on the first location, so the
event at the second location is never collected and the claimed
value-weighted centroid `x = (0·1 + 10·3)/4 = 7.5` is not produced. -/
theorem c4_centroid_first_location_only :
    location_average_handle [⟨1, 0, 0⟩, ⟨2, 10, 0⟩] [⟨1, 11, 0, 1⟩, ⟨2, 12, 0, 3⟩]
      = Except.ok [((0 : ℚ), (0 : ℚ))]
    ∧ (0 : ℚ) ≠ 15 / 2 := by
  constructor
  · simp [location_average_handle, calculate_location_averages, find_event_locations,
      Except.map, Prod.ext_iff]
  · norm_num

/-- `FixedDurationSource.handle` (src/gasmon/pipeline.py) over a finite
upstream sequence.  `end_time` is the deadline captured when the generator
body first runs (first pull); each upstream element is paired with the
wall-clock instant at which the `time() < end_time` check runs — note the
`for` loop pulls the element *before* that check.  Returns the yielded
events and the number of upstream elements pulled. -/
def fixed_duration_handle (end_time : ℤ) : List (Event × ℤ) → List Event × ℕ
  | [] => ([], 0)
  | (e, t) :: rest =>
    if t < end_time then
      match fixed_duration_handle end_time rest with
      | (ys, pulled) => (e :: ys, pulled + 1)
    else ([], 1)

/-- C6 counterexample.  With the deadline already passed (deadline 5, first
check at instant 6), the stage yields nothing — the output prefix is empty —
yet one upstream element was pulled (and discarded), so the number of
elements demanded differs from the length of the yielded prefix,
contradicting "no upstream element beyond that prefix is demanded". -/
theorem c6_element_pulled_beyond_cutoff :
    fixed_duration_handle 5 [(⟨1, 51, 0, 1⟩, 6), (⟨1, 52, 0, 1⟩, 7)] = ([], 1)
    ∧ (fixed_duration_handle 5 [(⟨1, 51, 0, 1⟩, 6), (⟨1, 52, 0, 1⟩, 7)]).2
        ≠ (fixed_duration_handle 5 [(⟨1, 51, 0, 1⟩, 6), (⟨1, 52, 0, 1⟩, 7)]).1.length := by
  refine ⟨by decide, by decide⟩

/-- C6 amended.  The output is exactly the prefix of upstream elements whose
check instant is strictly before the deadline, and the stage pulls at most
one element beyond that prefix: the single element whose time check fails
(none after it are pulled), so the pull count is
`min (length upstream) (length output + 1)`. -/
theorem c6_output_cutoff_one_extra_pull :
    ∀ (end_time : ℤ) (inputs : List (Event × ℤ)),
      fixed_duration_handle end_time inputs
        = ((inputs.takeWhile fun p => decide (p.2 < end_time)).map Prod.fst,
            min inputs.length
              ((inputs.takeWhile fun p => decide (p.2 < end_time)).length + 1)) := by
  intro end_time inputs
  induction inputs with
  | nil => simp [fixed_duration_handle]
  | cons p rest ih =>
    rcases p with ⟨e, t⟩
    by_cases h : t < end_time
    · simp [fixed_duration_handle, h, ih, List.takeWhile_cons, Nat.succ_min_succ]
    · have hmin : min (rest.length + 1) 1 = 1 :=
        Nat.min_eq_right (Nat.succ_le_succ (Nat.zero_le _))
      simp [fixed_duration_handle, h, List.takeWhile_cons, hmin]
